import Mathlib

/-!
Shallow embedding of the room-planner core (config.js, js/utils.js,
js/models/Room.js, js/models/PlacedObject.js, js/services/ObjectManager.js,
js/services/PersistenceService.js and the load path of js/main.js), together
with theorems about the behaviour of its operations.

Conventions of the embedding:
* JavaScript numbers are modelled as real numbers (`ℝ`).  IEEE-754 special
  values are not representable in `ℝ`; where the persistence layer has to
  distinguish `NaN`/`Infinity` (because the loader tests `isNaN`), saved
  coordinates use the dedicated type `JsNum`.
* JavaScript string fields that may be `undefined` are modelled as
  `Option String`; the JS truthiness test on such a field (`undefined` and
  `""` are falsy) is `strTruthy`, and `a || b` on them is `strOr`.
* Mutable objects are modelled by explicit state passing.  The manager's
  `selectedObject` reference is modelled by the referenced entity's
  `uniqueId` (identifiers are unique for reachable states, so this is a
  faithful model of reference identity).  The module-level `objectCounter`
  of PlacedObject.js is threaded through the manager state as `counter`.
* The manager's change-notification callback is modelled as registered:
  the field `notifications` counts the invocations of `_notifyChange`,
  i.e. the number of times the registered callback is called.
-/

open Classical

set_option maxHeartbeats 1000000

/-- CANVAS_MAX_WIDTH from config.js. -/
def CANVAS_MAX_WIDTH : ℝ := 1000

/-- CANVAS_MAX_HEIGHT from config.js. -/
def CANVAS_MAX_HEIGHT : ℝ := 700

/-- ROTATION_INCREMENT from config.js (degrees per rotation step). -/
def ROTATION_INCREMENT : ℝ := 10

/-- degreesToRadians from utils.js: `degrees * (Math.PI / 180)`. -/
noncomputable def degreesToRadians (degrees : ℝ) : ℝ :=
  degrees * (Real.pi / 180)

/-- isPointInRotatedRectangle from utils.js.  The point is translated to the
rectangle's center, rotated by the opposite angle, translated back, and then
tested against the unrotated axis-aligned bounds. -/
noncomputable def isPointInRotatedRectangle
    (px py rx ry rWidth rHeight rAngleDegrees : ℝ) : Prop :=
  let angleRad := -(degreesToRadians rAngleDegrees)
  let centerX := rx + rWidth / 2
  let centerY := ry + rHeight / 2
  let translatedX := px - centerX
  let translatedY := py - centerY
  let rotatedX := translatedX * Real.cos angleRad - translatedY * Real.sin angleRad
  let rotatedY := translatedX * Real.sin angleRad + translatedY * Real.cos angleRad
  let finalX := rotatedX + centerX
  let finalY := rotatedY + centerY
  finalX ≥ rx ∧ finalX ≤ rx + rWidth ∧ finalY ≥ ry ∧ finalY ≤ ry + rHeight

/-- Truncation toward zero, as used by the JavaScript `%` operator. -/
noncomputable def jsTrunc (x : ℝ) : ℤ :=
  if 0 ≤ x then ⌊x⌋ else ⌈x⌉

/-- The JavaScript remainder operator `a % b` on numbers:
`a - b * trunc(a / b)` (the result carries the sign of the dividend). -/
noncomputable def jsMod (a b : ℝ) : ℝ :=
  a - b * (jsTrunc (a / b) : ℝ)

/-- JS truthiness of a possibly-missing string field: `undefined` and the
empty string are falsy, every other string is truthy. -/
def strTruthy : Option String → Bool
  | none => false
  | some s => !(s == "")

/-- The JS expression `v || dflt` for a possibly-missing string field `v`. -/
def strOr : Option String → String → String
  | none, dflt => dflt
  | some s, dflt => if s == "" then dflt else s

/-- An object definition as passed to `addObject` / `new PlacedObject`:
a JS object with fields id, name, width, length, color, label, any of the
string fields possibly `undefined`. -/
structure ObjectDefinition where
  id : Option String
  name : Option String
  width : ℝ
  length : ℝ
  color : Option String
  label : Option String

/-- A placed object (js/models/PlacedObject.js).  `uniqueId` is the numeric
part of the JS id string `obj-<n>` drawn from the module counter. -/
structure PlacedObject where
  uniqueId : ℕ
  typeId : String
  name : String
  widthUnits : ℝ
  lengthUnits : ℝ
  color : String
  label : String
  x : ℝ
  y : ℝ
  rotation : ℝ
  isSelected : Bool
  scale : ℝ
  widthPixels : ℝ
  lengthPixels : ℝ

/-- PlacedObject.updateScale: store the new scale and recompute the pixel
dimensions from the unchanged physical units. -/
def PlacedObject.updateScale (o : PlacedObject) (newScale : ℝ) : PlacedObject :=
  { o with
    scale := newScale
    widthPixels := o.widthUnits * newScale
    lengthPixels := o.lengthUnits * newScale }

/-- The PlacedObject constructor.  `counter` is the value of the module-level
`objectCounter` at construction time (the constructor increments it; the
increment is performed by the callers of `make` in this embedding). -/
def PlacedObject.make (objectDefinition : ObjectDefinition) (x y scale : ℝ)
    (counter : ℕ) : PlacedObject :=
  { uniqueId := counter
    typeId := strOr objectDefinition.id "custom"
    name := strOr objectDefinition.name ("Object obj-" ++ toString counter)
    widthUnits := objectDefinition.width
    lengthUnits := objectDefinition.length
    color := strOr objectDefinition.color "#cccccc"
    label := strOr objectDefinition.label ""
    x := x
    y := y
    rotation := 0
    isSelected := false
    scale := scale
    widthPixels := objectDefinition.width * scale
    lengthPixels := objectDefinition.length * scale }

/-- PlacedObject.rotate: `this.rotation = (this.rotation + ROTATION_INCREMENT) % 360`. -/
noncomputable def PlacedObject.rotate (o : PlacedObject) : PlacedObject :=
  { o with rotation := jsMod (o.rotation + ROTATION_INCREMENT) 360 }

/-- PlacedObject.setPosition: unconditionally set the center coordinates. -/
def PlacedObject.setPosition (o : PlacedObject) (x y : ℝ) : PlacedObject :=
  { o with x := x, y := y }

/-- The Room model (js/models/Room.js): physical dimensions, derived scale
and derived canvas pixel size. -/
structure Room where
  width : ℝ
  length : ℝ
  scale : ℝ
  canvasWidth : ℝ
  canvasHeight : ℝ

/-- Room.calculateScale: the smaller of the two per-axis scale factors. -/
noncomputable def Room.calculateScale (width length : ℝ) : ℝ :=
  min (CANVAS_MAX_WIDTH / width) (CANVAS_MAX_HEIGHT / length)

/-- The Room constructor: throws when either dimension is `≤ 0`, otherwise
derives scale and canvas pixel dimensions. -/
noncomputable def Room.make (width length : ℝ) : Except String Room :=
  if width ≤ 0 ∨ length ≤ 0 then
    .error "Room dimensions must be positive."
  else
    let scale := Room.calculateScale width length
    .ok { width := width
          length := length
          scale := scale
          canvasWidth := width * scale
          canvasHeight := length * scale }

/-- The ObjectManager state (js/services/ObjectManager.js), with the
module-level PlacedObject counter and the count of callback invocations
threaded through (see the module docstring). -/
structure ObjectManager where
  room : Room
  placedObjects : List PlacedObject
  selectedId : Option ℕ
  notifications : ℕ
  counter : ℕ

/-- The ObjectManager constructor: empty collection, no selection. -/
def ObjectManager.init (room : Room) : ObjectManager :=
  { room := room
    placedObjects := []
    selectedId := none
    notifications := 0
    counter := 0 }

/-- ObjectManager._notifyChange with a registered callback: one callback
invocation. -/
def ObjectManager.notifyChange (s : ObjectManager) : ObjectManager :=
  { s with notifications := s.notifications + 1 }

/-- ObjectManager.selectObject: clear the `isSelected` flag of the previously
selected entity, store the new selection, set its flag, and notify.  The
argument is the `uniqueId` of the entity to select (or `none` to deselect);
flag updates act on the collection entries carrying that id, which models the
in-place mutation of the referenced heap object. -/
def ObjectManager.selectObject (s : ObjectManager) (objectToSelect : Option ℕ) :
    ObjectManager :=
  let afterDeselect :=
    match s.selectedId with
    | none => s.placedObjects
    | some i => s.placedObjects.map fun o =>
        if o.uniqueId = i then { o with isSelected := false } else o
  let afterSelect :=
    match objectToSelect with
    | none => afterDeselect
    | some j => afterDeselect.map fun o =>
        if o.uniqueId = j then { o with isSelected := true } else o
  ObjectManager.notifyChange
    { s with placedObjects := afterSelect, selectedId := objectToSelect }

/-- Validity of an object definition as tested by `addObject`:
`!objectDefinition.id || !objectDefinition.name || !(width > 0) || !(length > 0)`
refuses the add; this predicate is the complement. -/
def validDefinition (d : ObjectDefinition) : Prop :=
  strTruthy d.id = true ∧ strTruthy d.name = true ∧ 0 < d.width ∧ 0 < d.length

/-- ObjectManager.addObject: validate the definition; on failure return null
without any mutation.  On success construct the entity at the given center
with the room's current scale, append it, select it (which already notifies
once), and notify again. -/
noncomputable def ObjectManager.addObject (s : ObjectManager)
    (objectDefinition : ObjectDefinition) (initialX initialY : ℝ) :
    Option PlacedObject × ObjectManager :=
  if validDefinition objectDefinition then
    let newObject :=
      PlacedObject.make objectDefinition initialX initialY s.room.scale s.counter
    let s1 : ObjectManager :=
      { s with
        placedObjects := s.placedObjects ++ [newObject]
        counter := s.counter + 1 }
    let s2 := s1.selectObject (some newObject.uniqueId)
    (some newObject, s2.notifyChange)
  else
    (none, s)

/-- The hit test performed by `selectObjectAt` for one entity: the rotated
rectangle given by the entity's center-derived top-left corner, pixel
dimensions and rotation. -/
noncomputable def hitAt (canvasX canvasY : ℝ) (obj : PlacedObject) : Prop :=
  isPointInRotatedRectangle canvasX canvasY
    (obj.x - obj.widthPixels / 2) (obj.y - obj.lengthPixels / 2)
    obj.widthPixels obj.lengthPixels obj.rotation

/-- A forward scan returning the first element satisfying `p`; applied to a
reversed list this models the backwards `for` loop with `break` in
`selectObjectAt`. -/
noncomputable def jsFindFirst {α : Type} (p : α → Prop) : List α → Option α
  | [] => none
  | x :: xs => if p x then some x else jsFindFirst p xs

/-- ObjectManager.selectObjectAt: iterate backwards over the collection
(topmost first), select the first hit (or `none`), and return it.  The single
notification is the one issued by `selectObject`. -/
noncomputable def ObjectManager.selectObjectAt (s : ObjectManager)
    (canvasX canvasY : ℝ) : Option PlacedObject × ObjectManager :=
  let foundObject := jsFindFirst (hitAt canvasX canvasY) s.placedObjects.reverse
  (foundObject, s.selectObject (foundObject.map PlacedObject.uniqueId))

/-- The projected width `|w·cos θ| + |h·sin θ|` of the rotated entity's
axis-aligned bounding box, as computed by `moveSelectedObject`. -/
noncomputable def projectedWidth (o : PlacedObject) : ℝ :=
  |o.widthPixels * Real.cos (degreesToRadians o.rotation)| +
    |o.lengthPixels * Real.sin (degreesToRadians o.rotation)|

/-- The projected height `|w·sin θ| + |h·cos θ|` of the rotated entity's
axis-aligned bounding box, as computed by `moveSelectedObject`. -/
noncomputable def projectedHeight (o : PlacedObject) : ℝ :=
  |o.widthPixels * Real.sin (degreesToRadians o.rotation)| +
    |o.lengthPixels * Real.cos (degreesToRadians o.rotation)|

/-- The body of `moveSelectedObject` applied to the selected entity: clamp
the requested center on each axis to
`[projectedHalfExtent, roomPixelExtent − projectedHalfExtent]` and store it. -/
noncomputable def movedObject (room : Room) (o : PlacedObject) (newX newY : ℝ) :
    PlacedObject :=
  let halfProjectedWidth := projectedWidth o / 2
  let halfProjectedHeight := projectedHeight o / 2
  let clampedX := max halfProjectedWidth (min newX (room.canvasWidth - halfProjectedWidth))
  let clampedY := max halfProjectedHeight (min newY (room.canvasHeight - halfProjectedHeight))
  o.setPosition clampedX clampedY

/-- ObjectManager.moveSelectedObject: early return without notification when
nothing is selected; otherwise clamp and set the selected entity's position
and notify once. -/
noncomputable def ObjectManager.moveSelectedObject (s : ObjectManager)
    (newX newY : ℝ) : ObjectManager :=
  match s.selectedId with
  | none => s
  | some i =>
      ObjectManager.notifyChange
        { s with placedObjects := s.placedObjects.map fun o =>
            if o.uniqueId = i then movedObject s.room o newX newY else o }

/-- ObjectManager.rotateSelectedObject: early return when nothing is
selected; otherwise advance the selected entity's rotation and notify once
(no re-clamping of the position). -/
noncomputable def ObjectManager.rotateSelectedObject (s : ObjectManager) :
    ObjectManager :=
  match s.selectedId with
  | none => s
  | some i =>
      ObjectManager.notifyChange
        { s with placedObjects := s.placedObjects.map fun o =>
            if o.uniqueId = i then o.rotate else o }

/-- Array.prototype.findIndex, with `none` playing the role of `-1`. -/
def jsFindIndex {α : Type} (p : α → Bool) : List α → Option ℕ
  | [] => none
  | x :: xs => if p x then some 0 else (jsFindIndex p xs).map (· + 1)

/-- ObjectManager.deleteSelectedObject: early return when nothing is
selected; find the index of the entity whose `uniqueId` matches the selected
one, splice it out, clear the selection and notify once.  The removed
entity's `isSelected` flag is not touched. -/
def ObjectManager.deleteSelectedObject (s : ObjectManager) : ObjectManager :=
  match s.selectedId with
  | none => s
  | some i =>
      match jsFindIndex (fun o => o.uniqueId == i) s.placedObjects with
      | some index =>
          ObjectManager.notifyChange
            { s with
              placedObjects := s.placedObjects.eraseIdx index
              selectedId := none }
      | none => s

/-- ObjectManager.updateObjectScales: rescale every entity and notify once. -/
def ObjectManager.updateObjectScales (s : ObjectManager) (newScale : ℝ) :
    ObjectManager :=
  ObjectManager.notifyChange
    { s with placedObjects := s.placedObjects.map fun o => o.updateScale newScale }

/-- A JavaScript number as it can appear in a persisted record: an ordinary
(finite) number, `NaN`, or `±Infinity`.  Only the loader needs to
distinguish the special values (it tests `isNaN`); `toReal` is the value
used when such a number is stored into a real-valued field (the special
values, not representable in `ℝ`, are mapped to a placeholder). -/
inductive JsNum where
  | num (x : ℝ)
  | nan
  | inf
  | negInf

/-- The JS `isNaN` test on a `JsNum`. -/
def JsNum.isNaN : JsNum → Bool
  | .nan => true
  | _ => false

/-- The real value of a finite `JsNum` (placeholder 0 for the special
values, which are outside the `ℝ` model). -/
noncomputable def JsNum.toReal : JsNum → ℝ
  | .num x => x
  | _ => 0

/-- One persisted object record, as produced by saveLayout in
js/services/PersistenceService.js. -/
structure SavedObject where
  typeId : String
  name : String
  label : String
  widthUnits : ℝ
  lengthUnits : ℝ
  color : String
  x : JsNum
  y : JsNum
  rotation : ℝ

/-- The per-object mapping of saveLayout: keep the descriptive fields, the
physical units, the pixel-space center and the rotation; drop uniqueId,
isSelected, scale and pixel dimensions. -/
def savedRecordOfObject (o : PlacedObject) : SavedObject :=
  { typeId := o.typeId
    name := o.name
    label := o.label
    widthUnits := o.widthUnits
    lengthUnits := o.lengthUnits
    color := o.color
    x := JsNum.num o.x
    y := JsNum.num o.y
    rotation := o.rotation }

/-- The persisted layout schema `{ room: { width, length }, objects: [...] }`. -/
structure LayoutData where
  roomWidth : ℝ
  roomLength : ℝ
  objects : List SavedObject

/-- saveLayout from js/services/PersistenceService.js: serialize the room's
physical dimensions and the mapped object records. -/
def saveLayout (room : Room) (objectManager : ObjectManager) : LayoutData :=
  { roomWidth := room.width
    roomLength := room.length
    objects := objectManager.placedObjects.map savedRecordOfObject }

/-- The per-record validation of loadObjectsIntoManager in js/main.js:
a record is restored unless `widthUnits <= 0 || lengthUnits <= 0 ||
isNaN(x) || isNaN(y)`. -/
def savedRecordValid (objData : SavedObject) : Prop :=
  ¬objData.widthUnits ≤ 0 ∧ ¬objData.lengthUnits ≤ 0 ∧
    objData.x.isNaN = false ∧ objData.y.isNaN = false

/-- The entity constructed by loadObjectsIntoManager for one (valid) record:
rebuild a definition (`typeId || fallback-id`, `name || 'Loaded Object'`,
`label || ''`, units, `color || CUSTOM_OBJECT_DEFAULTS.color`), construct the
PlacedObject at the saved coordinates with the current room scale, then
overwrite its rotation with `Number(objData.rotation) || 0` (the identity on
the real-number model). -/
noncomputable def loadedObjectOfRecord (room : Room) (counter index : ℕ)
    (objData : SavedObject) : PlacedObject :=
  let definitionPart : ObjectDefinition :=
    { id := some (strOr (some objData.typeId) ("custom-loaded-" ++ toString index))
      name := some (strOr (some objData.name) "Loaded Object")
      label := some (strOr (some objData.label) "")
      width := objData.widthUnits
      length := objData.lengthUnits
      color := some (strOr (some objData.color) "#888888") }
  let loadedObj :=
    PlacedObject.make definitionPart objData.x.toReal objData.y.toReal room.scale counter
  { loadedObj with rotation := objData.rotation }

/-- The forEach loop of loadObjectsIntoManager: `index` is the loop index,
used in the fallback id; records failing the per-record validation are
skipped individually (`return` inside forEach) and the loop continues with
the remaining records. -/
noncomputable def loadObjectsGo (room : Room) :
    ℕ → ObjectManager → List SavedObject → ObjectManager
  | _, acc, [] => acc
  | index, acc, objData :: rest =>
      if savedRecordValid objData then
        let loadedObj := loadedObjectOfRecord room acc.counter index objData
        loadObjectsGo room (index + 1)
          { acc with
            placedObjects := acc.placedObjects ++ [loadedObj]
            counter := acc.counter + 1 }
          rest
      else
        loadObjectsGo room (index + 1) acc rest

/-- loadObjectsIntoManager from js/main.js: push a restored entity for every
valid record (bypassing addObject's selection logic), skipping invalid
records one by one. -/
noncomputable def loadObjectsIntoManager (s : ObjectManager)
    (objectsData : List SavedObject) : ObjectManager :=
  loadObjectsGo s.room 0 s objectsData

/-- One mutating manager operation, for reasoning about arbitrary operation
sequences.  `select` carries the position in the current collection of the
entity handed to `selectObject` (callers of the JS method always pass a
collection member or `null`). -/
inductive ManagerOp where
  | add (d : ObjectDefinition) (x y : ℝ)
  | selectAt (x y : ℝ)
  | select (idx : Option ℕ)
  | move (x y : ℝ)
  | rotateSel
  | deleteSel
  | rescale (newScale : ℝ)

/-- Apply one manager operation to a manager state. -/
noncomputable def ObjectManager.step (s : ObjectManager) : ManagerOp → ObjectManager
  | .add d x y => (s.addObject d x y).2
  | .selectAt x y => (s.selectObjectAt x y).2
  | .select none => s.selectObject none
  | .select (some idx) =>
      match s.placedObjects.get? idx with
      | some o => s.selectObject (some o.uniqueId)
      | none => s
  | .move x y => s.moveSelectedObject x y
  | .rotateSel => s.rotateSelectedObject
  | .deleteSel => s.deleteSelectedObject
  | .rescale newScale => s.updateObjectScales newScale

/-- Run a sequence of manager operations from a fresh manager. -/
noncomputable def runOps (room : Room) (ops : List ManagerOp) : ObjectManager :=
  ops.foldl ObjectManager.step (ObjectManager.init room)

/-- The selection invariant stated in the spec: the selected reference, if
present, is an element of the collection and is the unique flagged entity;
when the selection is absent no entity is flagged. -/
def SelInv (s : ObjectManager) : Prop :=
  (∀ i, s.selectedId = some i →
    ∃ o ∈ s.placedObjects, o.uniqueId = i ∧ o.isSelected = true) ∧
  (∀ o ∈ s.placedObjects, o.isSelected = true → s.selectedId = some o.uniqueId) ∧
  (∀ j k : Fin s.placedObjects.length,
    (s.placedObjects.get j).isSelected = true →
    (s.placedObjects.get k).isSelected = true → j = k) ∧
  (s.selectedId = none → ∀ o ∈ s.placedObjects, o.isSelected = false)

/-- The strengthened inductive invariant: identifiers in the collection are
distinct and below the counter, the selected id (if any) belongs to a
flagged collection member, and every flagged member is the selected one. -/
def ManagerInv (s : ObjectManager) : Prop :=
  (s.placedObjects.map PlacedObject.uniqueId).Nodup ∧
  (∀ o ∈ s.placedObjects, o.uniqueId < s.counter) ∧
  (∀ i, s.selectedId = some i →
    ∃ o ∈ s.placedObjects, o.uniqueId = i ∧ o.isSelected = true) ∧
  (∀ o ∈ s.placedObjects, o.isSelected = true → s.selectedId = some o.uniqueId)

/-- The property claimed by the boundary law: the entity's rotation-projected
axis-aligned bounding box lies entirely within the room's pixel bounds. -/
noncomputable def bboxWithinRoom (room : Room) (o : PlacedObject) : Prop :=
  0 ≤ o.x - projectedWidth o / 2 ∧ o.x + projectedWidth o / 2 ≤ room.canvasWidth ∧
  0 ≤ o.y - projectedHeight o / 2 ∧ o.y + projectedHeight o / 2 ≤ room.canvasHeight

/-- Field correspondence between a persisted record and the entity the
loader reconstructs from it. -/
noncomputable def restoredMatch (r : SavedObject) (o : PlacedObject) : Prop :=
  o.widthUnits = r.widthUnits ∧ o.lengthUnits = r.lengthUnits ∧
  o.x = r.x.toReal ∧ o.y = r.y.toReal ∧ o.rotation = r.rotation ∧
  o.label = r.label ∧ (r.typeId ≠ "" → o.typeId = r.typeId)

/-- Field correspondence between an entity of the saved manager and the
corresponding entity after a save/load round trip. -/
def roundTripMatch (o o2 : PlacedObject) : Prop :=
  o2.typeId = o.typeId ∧ o2.label = o.label ∧ o2.widthUnits = o.widthUnits ∧
  o2.lengthUnits = o.lengthUnits ∧ o2.rotation = o.rotation ∧
  o2.x = o.x ∧ o2.y = o.y

/-- The 5×4-unit room of the spec scenario: scale 175 px/unit, canvas
875×700 px. -/
def testRoom : Room :=
  { width := 5, length := 4, scale := 175, canvasWidth := 875, canvasHeight := 700 }

/-- A valid custom object definition: 2×1 units. -/
def demoDef : ObjectDefinition :=
  { id := some "custom-1", name := some "Custom Block", width := 2, length := 1,
    color := some "#888888", label := some "Desk" }

/-- The 2×1-unit entity of the spec scenario placed in `testRoom`
(350×175 px at scale 175), currently selected. -/
def objW : PlacedObject :=
  { PlacedObject.make demoDef 400 350 175 0 with isSelected := true }

/-- A one-object manager state for `testRoom` with `objW` selected. -/
def mgrW : ObjectManager :=
  { room := testRoom, placedObjects := [objW], selectedId := some 0,
    notifications := 0, counter := 1 }

/-- A 10×1-unit definition: wider (1750 px at scale 175) than the 875 px
canvas of `testRoom`. -/
def bigDef : ObjectDefinition :=
  { id := some "custom-2", name := some "Custom Block", width := 10, length := 1,
    color := some "#888888", label := some "Big" }

/-- The oversized 10×1-unit entity placed in `testRoom`, selected. -/
def objBig : PlacedObject :=
  { PlacedObject.make bigDef 437 350 175 0 with isSelected := true }

/-- A one-object manager state for `testRoom` with the oversized `objBig`
selected. -/
def mgrBig : ObjectManager :=
  { room := testRoom, placedObjects := [objBig], selectedId := some 0,
    notifications := 0, counter := 1 }

/-- Two coincident unselected 2×1 entities in `testRoom` (ids 0 and 1,
the second on top in z-order). -/
def mgrTwo : ObjectManager :=
  { room := testRoom
    placedObjects := [PlacedObject.make demoDef 400 350 175 0,
      PlacedObject.make demoDef 400 350 175 1]
    selectedId := none
    notifications := 0
    counter := 2 }

/-- A persisted record carrying an infinite x coordinate (a non-finite,
non-NaN JS number) and otherwise valid fields. -/
def infRec : SavedObject :=
  { typeId := "desk", name := "Desk", label := "", widthUnits := 1,
    lengthUnits := 1, color := "#888888", x := JsNum.inf, y := JsNum.num 350,
    rotation := 0 }

/-- A definition with a non-positive width (invalid per addObject). -/
def badDef : ObjectDefinition :=
  { id := some "custom-3", name := some "Custom Block", width := 0, length := 1,
    color := some "#888888", label := some "Bad" }

section HelperLemmas

variable {s : ObjectManager} {t : Option ℕ}

@[simp] lemma notifyChange_room (s : ObjectManager) : s.notifyChange.room = s.room := rfl

@[simp] lemma notifyChange_placedObjects (s : ObjectManager) :
    s.notifyChange.placedObjects = s.placedObjects := rfl

@[simp] lemma notifyChange_selectedId (s : ObjectManager) :
    s.notifyChange.selectedId = s.selectedId := rfl

@[simp] lemma notifyChange_counter (s : ObjectManager) :
    s.notifyChange.counter = s.counter := rfl

@[simp] lemma notifyChange_notifications (s : ObjectManager) :
    s.notifyChange.notifications = s.notifications + 1 := rfl

@[simp] lemma selectObject_room (s : ObjectManager) (t : Option ℕ) :
    (s.selectObject t).room = s.room := by
  unfold ObjectManager.selectObject; rfl

@[simp] lemma selectObject_selectedId (s : ObjectManager) (t : Option ℕ) :
    (s.selectObject t).selectedId = t := by
  unfold ObjectManager.selectObject; rfl

@[simp] lemma selectObject_counter (s : ObjectManager) (t : Option ℕ) :
    (s.selectObject t).counter = s.counter := by
  unfold ObjectManager.selectObject; rfl

@[simp] lemma selectObject_notifications (s : ObjectManager) (t : Option ℕ) :
    (s.selectObject t).notifications = s.notifications + 1 := by
  unfold ObjectManager.selectObject; rfl

/-- The combined effect of `selectObject` on the collection: one flag update
per entry, keyed on the previously and the newly selected identifier. -/
lemma selectObject_placedObjects (s : ObjectManager) (t : Option ℕ) :
    (s.selectObject t).placedObjects = s.placedObjects.map fun o =>
      if some o.uniqueId = t then { o with isSelected := true }
      else if some o.uniqueId = s.selectedId then { o with isSelected := false }
      else o := by
  cases hs : s.selectedId <;> cases ht : t <;>
    simp only [ObjectManager.selectObject, ObjectManager.notifyChange, hs, ht]
  · simp
  · rename_i j
    refine List.map_congr_left fun o _ => ?_
    by_cases h : o.uniqueId = j <;> simp [h]
  · rename_i i
    refine List.map_congr_left fun o _ => ?_
    by_cases h : o.uniqueId = i <;> simp [h]
  · rename_i i j
    rw [List.map_map]
    refine List.map_congr_left fun o _ => ?_
    simp only [Function.comp_apply]
    by_cases h2 : o.uniqueId = i
    · rw [if_pos h2]
      by_cases h1 : o.uniqueId = j
      · rw [if_pos (show ({ o with isSelected := false } : PlacedObject).uniqueId = j from h1)]
        rw [if_pos (show (some o.uniqueId = some j) by rw [h1])]
      · rw [if_neg (show ¬({ o with isSelected := false } : PlacedObject).uniqueId = j from h1)]
        rw [if_neg (show ¬(some o.uniqueId = some j) by simpa using h1)]
        rw [if_pos (show (some o.uniqueId = some i) by rw [h2])]
    · rw [if_neg h2]
      by_cases h1 : o.uniqueId = j
      · rw [if_pos h1, if_pos (show (some o.uniqueId = some j) by rw [h1])]
      · rw [if_neg h1, if_neg (show ¬(some o.uniqueId = some j) by simpa using h1)]
        rw [if_neg (show ¬(some o.uniqueId = some i) by simpa using h2)]

lemma jsFindFirst_mem {α : Type} {p : α → Prop} {l : List α} {a : α}
    (h : jsFindFirst p l = some a) : a ∈ l ∧ p a := by
  induction l with
  | nil => simp [jsFindFirst] at h
  | cons x xs ih =>
      rw [jsFindFirst] at h
      by_cases hp : p x
      · rw [if_pos hp] at h
        cases h
        exact ⟨List.mem_cons_self _ _, hp⟩
      · rw [if_neg hp] at h
        obtain ⟨hmem, hpa⟩ := ih h
        exact ⟨List.mem_cons_of_mem _ hmem, hpa⟩

lemma jsFindFirst_eq_none {α : Type} {p : α → Prop} {l : List α}
    (h : jsFindFirst p l = none) : ∀ a ∈ l, ¬p a := by
  induction l with
  | nil => simp
  | cons x xs ih =>
      rw [jsFindFirst] at h
      by_cases hp : p x
      · rw [if_pos hp] at h; cases h
      · rw [if_neg hp] at h
        intro a ha
        rcases List.mem_cons.mp ha with rfl | ha
        · exact hp
        · exact ih h a ha

/-- A successful `jsFindFirst` splits the list at the first match. -/
lemma jsFindFirst_split {α : Type} {p : α → Prop} {l : List α} {a : α}
    (h : jsFindFirst p l = some a) :
    ∃ l₁ l₂, l = l₁ ++ a :: l₂ ∧ p a ∧ ∀ b ∈ l₁, ¬p b := by
  induction l with
  | nil => simp [jsFindFirst] at h
  | cons x xs ih =>
      rw [jsFindFirst] at h
      by_cases hp : p x
      · rw [if_pos hp] at h
        cases h
        exact ⟨[], xs, rfl, hp, by simp⟩
      · rw [if_neg hp] at h
        obtain ⟨l₁, l₂, rfl, hpa, hnone⟩ := ih h
        refine ⟨x :: l₁, l₂, rfl, hpa, ?_⟩
        intro b hb
        rcases List.mem_cons.mp hb with rfl | hb
        · exact hp
        · exact hnone b hb

lemma jsFindIndex_spec {α : Type} {p : α → Bool} {l : List α} {k : ℕ}
    (h : jsFindIndex p l = some k) :
    ∃ hk : k < l.length, p (l.get ⟨k, hk⟩) = true := by
  induction l generalizing k with
  | nil => simp [jsFindIndex] at h
  | cons x xs ih =>
      rw [jsFindIndex] at h
      by_cases hp : p x = true
      · rw [if_pos hp] at h
        cases h
        exact ⟨by simp, hp⟩
      · rw [if_neg hp] at h
        rcases Option.map_eq_some'.mp h with ⟨j, hj, rfl⟩
        obtain ⟨hjlt, hjp⟩ := ih hj
        exact ⟨by simpa using Nat.succ_lt_succ hjlt, hjp⟩

lemma jsFindIndex_exists {α : Type} {p : α → Bool} {l : List α}
    (h : ∃ a ∈ l, p a = true) : ∃ k, jsFindIndex p l = some k := by
  induction l with
  | nil => simp at h
  | cons x xs ih =>
      rw [jsFindIndex]
      by_cases hp : p x = true
      · exact ⟨0, by rw [if_pos hp]⟩
      · rw [if_neg hp]
        obtain ⟨a, ha, hpa⟩ := h
        rcases List.mem_cons.mp ha with rfl | ha
        · exact absurd hpa hp
        · obtain ⟨k, hk⟩ := ih ⟨a, ha, hpa⟩
          exact ⟨k + 1, by rw [hk]; rfl⟩

/-- After erasing the element found by uniqueId, no element with that
identifier remains (identifiers are distinct). -/
lemma eraseIdx_no_id {l : List PlacedObject} {i k : ℕ}
    (hn : (l.map PlacedObject.uniqueId).Nodup)
    (hfi : jsFindIndex (fun o => o.uniqueId == i) l = some k) :
    ∀ o' ∈ l.eraseIdx k, o'.uniqueId ≠ i := by
  induction l generalizing k with
  | nil => simp [jsFindIndex] at hfi
  | cons x xs ih =>
      rw [jsFindIndex] at hfi
      by_cases hp : (x.uniqueId == i) = true
      · rw [if_pos hp] at hfi
        cases hfi
        intro o' ho' hid
        have hx : x.uniqueId = i := by simpa using hp
        have : o'.uniqueId ∈ xs.map PlacedObject.uniqueId :=
          List.mem_map_of_mem _ (by simpa using ho')
        rw [List.map_cons, List.nodup_cons] at hn
        exact hn.1 (by rwa [hid, ← hx] at this)
      · rw [if_neg hp] at hfi
        rcases Option.map_eq_some'.mp hfi with ⟨j, hj, rfl⟩
        intro o' ho' hid
        rw [List.eraseIdx_cons_succ] at ho'
        rcases List.mem_cons.mp ho' with rfl | ho'
        · exact hp (by simpa using hid)
        · rw [List.map_cons, List.nodup_cons] at hn
          exact ih hn.2 hj o' ho' hid

end HelperLemmas

section OperationShapes

variable {s : ObjectManager} {d : ObjectDefinition} {x y : ℝ} {i : ℕ}

/-- On a valid definition, `addObject` appends the fresh entity, selects it
and notifies a second time. -/
lemma addObject_valid (hv : validDefinition d) :
    s.addObject d x y =
      (some (PlacedObject.make d x y s.room.scale s.counter),
        (({ s with
            placedObjects :=
              s.placedObjects ++ [PlacedObject.make d x y s.room.scale s.counter]
            counter := s.counter + 1 } : ObjectManager).selectObject
          (some s.counter)).notifyChange) := by
  unfold ObjectManager.addObject
  rw [if_pos hv]
  rfl

/-- On an invalid definition, `addObject` returns `null` and the state is
untouched. -/
lemma addObject_invalid (hv : ¬validDefinition d) :
    s.addObject d x y = (none, s) := by
  unfold ObjectManager.addObject
  rw [if_neg hv]

lemma selectObjectAt_eq (s : ObjectManager) (x y : ℝ) :
    s.selectObjectAt x y =
      (jsFindFirst (hitAt x y) s.placedObjects.reverse,
        s.selectObject
          ((jsFindFirst (hitAt x y) s.placedObjects.reverse).map PlacedObject.uniqueId)) :=
  rfl

lemma moveSelectedObject_none (hs : s.selectedId = none) :
    s.moveSelectedObject x y = s := by
  simp only [ObjectManager.moveSelectedObject, hs]

lemma moveSelectedObject_some (hs : s.selectedId = some i) :
    s.moveSelectedObject x y =
      ObjectManager.notifyChange
        { s with placedObjects := s.placedObjects.map fun o =>
            if o.uniqueId = i then movedObject s.room o x y else o } := by
  simp only [ObjectManager.moveSelectedObject, hs]

lemma rotateSelectedObject_none (hs : s.selectedId = none) :
    s.rotateSelectedObject = s := by
  simp only [ObjectManager.rotateSelectedObject, hs]

lemma rotateSelectedObject_some (hs : s.selectedId = some i) :
    s.rotateSelectedObject =
      ObjectManager.notifyChange
        { s with placedObjects := s.placedObjects.map fun o =>
            if o.uniqueId = i then o.rotate else o } := by
  simp only [ObjectManager.rotateSelectedObject, hs]

lemma deleteSelectedObject_none (hs : s.selectedId = none) :
    s.deleteSelectedObject = s := by
  simp only [ObjectManager.deleteSelectedObject, hs]

lemma deleteSelectedObject_found {k : ℕ} (hs : s.selectedId = some i)
    (hk : jsFindIndex (fun o => o.uniqueId == i) s.placedObjects = some k) :
    s.deleteSelectedObject =
      ObjectManager.notifyChange
        { s with placedObjects := s.placedObjects.eraseIdx k, selectedId := none } := by
  simp only [ObjectManager.deleteSelectedObject, hs, hk]

lemma updateObjectScales_eq (s : ObjectManager) (newScale : ℝ) :
    s.updateObjectScales newScale =
      ObjectManager.notifyChange
        { s with placedObjects := s.placedObjects.map fun o => o.updateScale newScale } :=
  rfl

end OperationShapes

section InvariantPreservation

variable {s : ObjectManager} {t : Option ℕ}

lemma manager_inv_init (room : Room) : ManagerInv (ObjectManager.init room) := by
  refine ⟨?_, ?_, ?_, ?_⟩ <;> simp [ObjectManager.init]

lemma manager_inv_notify (h : ManagerInv s) : ManagerInv s.notifyChange := h

lemma manager_inv_selectObject (h : ManagerInv s)
    (ht : t = none ∨ ∃ o ∈ s.placedObjects, t = some o.uniqueId) :
    ManagerInv (s.selectObject t) := by
  obtain ⟨hnd, hctr, hsel, hflag⟩ := h
  refine ⟨?_, ?_, ?_, ?_⟩
  · rw [selectObject_placedObjects, List.map_map]
    have hcomp : (PlacedObject.uniqueId ∘ fun o =>
        if some o.uniqueId = t then { o with isSelected := true }
        else if some o.uniqueId = s.selectedId then { o with isSelected := false }
        else o) = PlacedObject.uniqueId := by
      funext o
      simp only [Function.comp_apply]
      split_ifs <;> rfl
    rw [hcomp]
    exact hnd
  · intro o ho
    rw [selectObject_placedObjects] at ho
    rw [selectObject_counter]
    obtain ⟨o₀, h₀, rfl⟩ := List.mem_map.mp ho
    have hid : (if some o₀.uniqueId = t then ({ o₀ with isSelected := true } : PlacedObject)
        else if some o₀.uniqueId = s.selectedId then { o₀ with isSelected := false }
        else o₀).uniqueId = o₀.uniqueId := by
      split_ifs <;> rfl
    rw [hid]
    exact hctr o₀ h₀
  · intro i hi
    rw [selectObject_selectedId] at hi
    rcases ht with rfl | ⟨o₀, h₀, htv⟩
    · cases hi
    · subst htv
      rw [selectObject_placedObjects]
      cases hi
      refine ⟨{ o₀ with isSelected := true }, ?_, rfl, rfl⟩
      exact List.mem_map.mpr ⟨o₀, h₀, by simp⟩
  · intro o ho hf
    rw [selectObject_placedObjects] at ho
    rw [selectObject_selectedId]
    obtain ⟨o₀, h₀, rfl⟩ := List.mem_map.mp ho
    by_cases c1 : some o₀.uniqueId = t
    · rw [if_pos c1]
      exact c1.symm
    · rw [if_neg c1] at hf ⊢
      by_cases c2 : some o₀.uniqueId = s.selectedId
      · rw [if_pos c2] at hf
        cases hf
      · rw [if_neg c2] at hf ⊢
        exact absurd (hflag o₀ h₀ hf).symm c2

lemma manager_inv_map (h : ManagerInv s) (f : PlacedObject → PlacedObject)
    (hid : ∀ o, (f o).uniqueId = o.uniqueId)
    (hfl : ∀ o, (f o).isSelected = o.isSelected) :
    ManagerInv { s with placedObjects := s.placedObjects.map f } := by
  obtain ⟨hnd, hctr, hsel, hflag⟩ := h
  refine ⟨?_, ?_, ?_, ?_⟩
  · dsimp only
    rw [List.map_map]
    have hcomp : PlacedObject.uniqueId ∘ f = PlacedObject.uniqueId := funext hid
    rw [hcomp]
    exact hnd
  · intro o ho
    obtain ⟨o₀, h₀, rfl⟩ := List.mem_map.mp ho
    rw [hid]
    exact hctr o₀ h₀
  · intro i hi
    obtain ⟨o₀, h₀, hid₀, hfl₀⟩ := hsel i hi
    exact ⟨f o₀, List.mem_map_of_mem _ h₀, by rw [hid, hid₀], by rw [hfl, hfl₀]⟩
  · intro o ho hf
    obtain ⟨o₀, h₀, rfl⟩ := List.mem_map.mp ho
    rw [hfl] at hf
    rw [hid]
    exact hflag o₀ h₀ hf

lemma manager_inv_addObject (h : ManagerInv s) (d : ObjectDefinition) (x y : ℝ) :
    ManagerInv (s.addObject d x y).2 := by
  by_cases hv : validDefinition d
  · rw [addObject_valid hv]
    obtain ⟨hnd, hctr, hsel, hflag⟩ := h
    have h1 : ManagerInv
        { s with
          placedObjects :=
            s.placedObjects ++ [PlacedObject.make d x y s.room.scale s.counter]
          counter := s.counter + 1 } := by
      refine ⟨?_, ?_, ?_, ?_⟩
      · dsimp only
        rw [List.map_append]
        rw [List.nodup_append]
        refine ⟨hnd, List.nodup_singleton _, ?_⟩
        intro a ha hb
        have : a = s.counter := by simpa [PlacedObject.make] using hb
        subst this
        obtain ⟨o₀, h₀, h₀id⟩ := List.mem_map.mp ha
        exact absurd (h₀id ▸ hctr o₀ h₀) (lt_irrefl _)
      · intro o ho
        rcases List.mem_append.mp ho with ho | ho
        · exact Nat.lt_succ_of_lt (hctr o ho)
        · have : o = PlacedObject.make d x y s.room.scale s.counter := by simpa using ho
          subst this
          exact Nat.lt_succ_self _
      · exact fun i hi => by
          obtain ⟨o₀, h₀, hid₀, hfl₀⟩ := hsel i hi
          exact ⟨o₀, List.mem_append_left _ h₀, hid₀, hfl₀⟩
      · intro o ho hf
        rcases List.mem_append.mp ho with ho | ho
        · exact hflag o ho hf
        · have : o = PlacedObject.make d x y s.room.scale s.counter := by simpa using ho
          subst this
          simp [PlacedObject.make] at hf
    refine manager_inv_notify (manager_inv_selectObject h1 (Or.inr ?_))
    exact ⟨PlacedObject.make d x y s.room.scale s.counter, by simp, rfl⟩
  · rw [addObject_invalid hv]
    exact h

lemma manager_inv_selectObjectAt (h : ManagerInv s) (x y : ℝ) :
    ManagerInv (s.selectObjectAt x y).2 := by
  rw [selectObjectAt_eq]
  refine manager_inv_selectObject h ?_
  cases hf : jsFindFirst (hitAt x y) s.placedObjects.reverse with
  | none => exact Or.inl rfl
  | some a =>
      refine Or.inr ⟨a, ?_, rfl⟩
      exact List.mem_reverse.mp (jsFindFirst_mem hf).1

lemma manager_inv_delete (h : ManagerInv s) : ManagerInv s.deleteSelectedObject := by
  cases hs : s.selectedId with
  | none =>
      rw [deleteSelectedObject_none hs]
      exact h
  | some i =>
      obtain ⟨hnd, hctr, hsel, hflag⟩ := h
      obtain ⟨o₀, h₀, hoid, hofl⟩ := hsel i hs
      obtain ⟨k, hk⟩ := jsFindIndex_exists (p := fun o => o.uniqueId == i)
        ⟨o₀, h₀, by simp [hoid]⟩
      rw [deleteSelectedObject_found hs hk]
      refine manager_inv_notify ⟨?_, ?_, ?_, ?_⟩
      · exact hnd.sublist ((List.eraseIdx_sublist _ _).map _)
      · intro o ho
        exact hctr o ((List.eraseIdx_sublist _ _).subset ho)
      · intro j hj
        cases hj
      · intro o ho hf
        have hoin : o ∈ s.placedObjects := (List.eraseIdx_sublist _ _).subset ho
        have : s.selectedId = some o.uniqueId := hflag o hoin hf
        rw [hs] at this
        have hid : o.uniqueId = i := by injection this.symm
        exact absurd hid (eraseIdx_no_id hnd hk o ho)

lemma manager_inv_step (h : ManagerInv s) (op : ManagerOp) :
    ManagerInv (s.step op) := by
  cases op with
  | add d x y => exact manager_inv_addObject h d x y
  | selectAt x y => exact manager_inv_selectObjectAt h x y
  | select idx =>
      cases idx with
      | none => exact manager_inv_selectObject h (Or.inl rfl)
      | some n =>
          show ManagerInv (match s.placedObjects.get? n with
            | some o => s.selectObject (some o.uniqueId)
            | none => s)
          cases hg : s.placedObjects.get? n with
          | none => exact h
          | some o =>
              exact manager_inv_selectObject h (Or.inr ⟨o, List.get?_mem hg, rfl⟩)
  | move x y =>
      show ManagerInv (s.moveSelectedObject x y)
      cases hs : s.selectedId with
      | none => rw [moveSelectedObject_none hs]; exact h
      | some i =>
          rw [moveSelectedObject_some hs]
          refine manager_inv_notify (manager_inv_map h _ ?_ ?_) <;>
            intro o <;> split <;> rfl
  | rotateSel =>
      show ManagerInv s.rotateSelectedObject
      cases hs : s.selectedId with
      | none => rw [rotateSelectedObject_none hs]; exact h
      | some i =>
          rw [rotateSelectedObject_some hs]
          refine manager_inv_notify (manager_inv_map h _ ?_ ?_) <;>
            intro o <;> split <;> rfl
  | deleteSel => exact manager_inv_delete h
  | rescale newScale =>
      show ManagerInv (s.updateObjectScales newScale)
      rw [updateObjectScales_eq]
      exact manager_inv_notify (manager_inv_map h _ (fun o => rfl) (fun o => rfl))

lemma manager_inv_foldl (ops : List ManagerOp) :
    ∀ s, ManagerInv s → ManagerInv (ops.foldl ObjectManager.step s) := by
  induction ops with
  | nil => exact fun s h => h
  | cons op rest ih => exact fun s h => ih _ (manager_inv_step h op)

lemma manager_inv_runOps (room : Room) (ops : List ManagerOp) :
    ManagerInv (runOps room ops) :=
  manager_inv_foldl ops _ (manager_inv_init room)

lemma selInv_of_managerInv (h : ManagerInv s) : SelInv s := by
  obtain ⟨hnd, hctr, hsel, hflag⟩ := h
  refine ⟨hsel, hflag, ?_, ?_⟩
  · intro j k hj hk
    have h1 := hflag _ (s.placedObjects.get_mem j.1 j.2) hj
    have h2 := hflag _ (s.placedObjects.get_mem k.1 k.2) hk
    have hid : (s.placedObjects.get j).uniqueId = (s.placedObjects.get k).uniqueId := by
      rw [h1] at h2
      injection h2
    have hjlt : (j : ℕ) < (s.placedObjects.map PlacedObject.uniqueId).length := by
      simp
    have hklt : (k : ℕ) < (s.placedObjects.map PlacedObject.uniqueId).length := by
      simp
    have hmap : (s.placedObjects.map PlacedObject.uniqueId).get ⟨j.1, hjlt⟩ =
        (s.placedObjects.map PlacedObject.uniqueId).get ⟨k.1, hklt⟩ := by
      simp only [List.get_eq_getElem, List.getElem_map]
      simpa [List.get_eq_getElem] using hid
    have := (hnd.get_inj_iff).mp hmap
    have hval : (j : ℕ) = (k : ℕ) := by simpa using congrArg Fin.val this
    exact Fin.ext hval
  · intro hnone o ho
    by_contra hne
    have hf : o.isSelected = true := by
      cases hval : o.isSelected
      · exact absurd hval hne
      · rfl
    rw [hflag o ho hf] at hnone
    cases hnone

end InvariantPreservation

section RotationLemmas

lemma jsMod_bounds {a b : ℝ} (ha : 0 ≤ a) (hb : 0 < b) :
    0 ≤ jsMod a b ∧ jsMod a b < b := by
  have hdiv : 0 ≤ a / b := div_nonneg ha hb.le
  unfold jsMod jsTrunc
  rw [if_pos hdiv]
  have hcancel : b * (a / b) = a := by
    field_simp
  constructor
  · have h1 : (⌊a / b⌋ : ℝ) ≤ a / b := Int.floor_le _
    have h2 : b * (⌊a / b⌋ : ℝ) ≤ b * (a / b) := by
      exact mul_le_mul_of_nonneg_left h1 hb.le
    linarith
  · have h1 : a / b < (⌊a / b⌋ : ℝ) + 1 := Int.lt_floor_add_one _
    have h2 : b * (a / b) < b * ((⌊a / b⌋ : ℝ) + 1) := by
      exact mul_lt_mul_of_pos_left h1 hb
    nlinarith

lemma jsMod_eq_self {a b : ℝ} (ha : 0 ≤ a) (hb : 0 < b) (hab : a < b) :
    jsMod a b = a := by
  have hdiv : 0 ≤ a / b := div_nonneg ha hb.le
  unfold jsMod jsTrunc
  rw [if_pos hdiv]
  have hfz : ⌊a / b⌋ = 0 := by
    rw [Int.floor_eq_zero_iff]
    constructor
    · exact hdiv
    · rw [div_lt_one hb]
      exact hab
  rw [hfz]
  simp

lemma jsMod_eq_sub {a b : ℝ} (hb : 0 < b) (h1 : b ≤ a) (h2 : a < 2 * b) :
    jsMod a b = a - b := by
  have hdiv : 0 ≤ a / b := div_nonneg (le_trans hb.le h1) hb.le
  unfold jsMod jsTrunc
  rw [if_pos hdiv]
  have hfo : ⌊a / b⌋ = 1 := by
    have hlo : (1 : ℝ) ≤ a / b := (one_le_div hb).mpr h1
    have hhi : a / b < 2 := by
      rw [div_lt_iff₀ hb]
      linarith
    exact Int.floor_eq_iff.mpr ⟨by push_cast; linarith, by push_cast; linarith⟩
  rw [hfo]
  push_cast
  ring

lemma rotate_rotation_in_range {o : PlacedObject}
    (h0 : 0 ≤ o.rotation) (h1 : o.rotation < 360) :
    o.rotate.rotation =
      (if o.rotation + 10 < 360 then o.rotation + 10 else o.rotation + 10 - 360) := by
  show jsMod (o.rotation + ROTATION_INCREMENT) 360 = _
  rw [ROTATION_INCREMENT]
  by_cases hc : o.rotation + 10 < 360
  · rw [if_pos hc, jsMod_eq_self (by linarith) (by norm_num) hc]
  · rw [if_neg hc, jsMod_eq_sub (by norm_num) (by linarith) (by linarith)]

lemma rotate_range {o : PlacedObject}
    (h0 : 0 ≤ o.rotation) (h1 : o.rotation < 360) :
    0 ≤ o.rotate.rotation ∧ o.rotate.rotation < 360 := by
  rw [rotate_rotation_in_range h0 h1]
  split_ifs with hc
  · exact ⟨by linarith, hc⟩
  · exact ⟨by linarith, by linarith⟩

lemma rotate_iterate_exists (n : ℕ) (o : PlacedObject)
    (h0 : 0 ≤ o.rotation) (h1 : o.rotation < 360) :
    ∃ k : ℤ, (PlacedObject.rotate^[n] o).rotation = o.rotation + 10 * n - 360 * k ∧
      0 ≤ (PlacedObject.rotate^[n] o).rotation ∧
      (PlacedObject.rotate^[n] o).rotation < 360 := by
  induction n with
  | zero => exact ⟨0, by simp, h0, h1⟩
  | succ m ih =>
      obtain ⟨k, hk, hr0, hr1⟩ := ih
      rw [Function.iterate_succ_apply']
      have hstep := rotate_rotation_in_range hr0 hr1
      by_cases hc : (PlacedObject.rotate^[m] o).rotation + 10 < 360
      · refine ⟨k, ?_, ?_, ?_⟩ <;> rw [hstep, if_pos hc]
        · push_cast
          linarith
        · linarith
        · linarith
      · refine ⟨k + 1, ?_, ?_, ?_⟩ <;> rw [hstep, if_neg hc]
        · push_cast
          linarith
        · linarith
        · linarith

end RotationLemmas

section MoveLemmas

variable {s : ObjectManager} {i : ℕ}

lemma projectedWidth_nonneg (o : PlacedObject) : 0 ≤ projectedWidth o :=
  add_nonneg (abs_nonneg _) (abs_nonneg _)

lemma projectedHeight_nonneg (o : PlacedObject) : 0 ≤ projectedHeight o :=
  add_nonneg (abs_nonneg _) (abs_nonneg _)

lemma movedObject_x (room : Room) (o : PlacedObject) (newX newY : ℝ) :
    (movedObject room o newX newY).x =
      max (projectedWidth o / 2) (min newX (room.canvasWidth - projectedWidth o / 2)) :=
  rfl

lemma movedObject_y (room : Room) (o : PlacedObject) (newX newY : ℝ) :
    (movedObject room o newX newY).y =
      max (projectedHeight o / 2) (min newY (room.canvasHeight - projectedHeight o / 2)) :=
  rfl

lemma movedObject_projectedWidth (room : Room) (o : PlacedObject) (newX newY : ℝ) :
    projectedWidth (movedObject room o newX newY) = projectedWidth o :=
  rfl

lemma movedObject_projectedHeight (room : Room) (o : PlacedObject) (newX newY : ℝ) :
    projectedHeight (movedObject room o newX newY) = projectedHeight o :=
  rfl

/-- A single clamped move puts the bounding box inside the room, provided
the projected extents fit within the room's pixel extents. -/
lemma movedObject_within (room : Room) (o : PlacedObject) (newX newY : ℝ)
    (hw : projectedWidth o ≤ room.canvasWidth)
    (hh : projectedHeight o ≤ room.canvasHeight) :
    bboxWithinRoom room (movedObject room o newX newY) := by
  unfold bboxWithinRoom
  rw [movedObject_x, movedObject_y, movedObject_projectedWidth,
    movedObject_projectedHeight]
  have hw0 := projectedWidth_nonneg o
  have hh0 := projectedHeight_nonneg o
  refine ⟨?_, ?_, ?_, ?_⟩
  · have := le_max_left (projectedWidth o / 2)
      (min newX (room.canvasWidth - projectedWidth o / 2))
    linarith
  · have h1 : max (projectedWidth o / 2)
        (min newX (room.canvasWidth - projectedWidth o / 2)) ≤
        room.canvasWidth - projectedWidth o / 2 :=
      max_le (by linarith) (min_le_right _ _)
    linarith
  · have := le_max_left (projectedHeight o / 2)
      (min newY (room.canvasHeight - projectedHeight o / 2))
    linarith
  · have h1 : max (projectedHeight o / 2)
        (min newY (room.canvasHeight - projectedHeight o / 2)) ≤
        room.canvasHeight - projectedHeight o / 2 :=
      max_le (by linarith) (min_le_right _ _)
    linarith

lemma moveSelectedObject_room (s : ObjectManager) (x y : ℝ) :
    (s.moveSelectedObject x y).room = s.room := by
  cases hs : s.selectedId with
  | none => rw [moveSelectedObject_none hs]
  | some i => rw [moveSelectedObject_some hs]; rfl

lemma moveSelectedObject_selectedId (s : ObjectManager) (x y : ℝ) :
    (s.moveSelectedObject x y).selectedId = s.selectedId := by
  cases hs : s.selectedId with
  | none => rw [moveSelectedObject_none hs, hs]
  | some i => rw [moveSelectedObject_some hs, hs]; rfl

/-- Every entity carrying the selected id is clamped in bounds by one move. -/
lemma moveSelectedObject_inbounds (hs : s.selectedId = some i) (x y : ℝ)
    (hfit : ∀ o ∈ s.placedObjects, o.uniqueId = i →
      projectedWidth o ≤ s.room.canvasWidth ∧ projectedHeight o ≤ s.room.canvasHeight) :
    ∀ o ∈ (s.moveSelectedObject x y).placedObjects, o.uniqueId = i →
      bboxWithinRoom s.room o := by
  rw [moveSelectedObject_some hs]
  intro o ho hid
  rw [notifyChange_placedObjects] at ho
  obtain ⟨o₀, h₀, rfl⟩ := List.mem_map.mp ho
  by_cases hcase : o₀.uniqueId = i
  · rw [if_pos hcase] at hid ⊢
    obtain ⟨hw, hh⟩ := hfit o₀ h₀ hcase
    exact movedObject_within s.room o₀ x y hw hh
  · rw [if_neg hcase] at hid
    exact absurd hid hcase

/-- A move preserves the fit condition (projections and collection ids are
unchanged by the clamped reposition). -/
lemma moveSelectedObject_fit (hs : s.selectedId = some i) (x y : ℝ)
    (hfit : ∀ o ∈ s.placedObjects, o.uniqueId = i →
      projectedWidth o ≤ s.room.canvasWidth ∧ projectedHeight o ≤ s.room.canvasHeight) :
    ∀ o ∈ (s.moveSelectedObject x y).placedObjects, o.uniqueId = i →
      projectedWidth o ≤ (s.moveSelectedObject x y).room.canvasWidth ∧
        projectedHeight o ≤ (s.moveSelectedObject x y).room.canvasHeight := by
  rw [moveSelectedObject_some hs]
  intro o ho hid
  rw [notifyChange_placedObjects] at ho
  obtain ⟨o₀, h₀, rfl⟩ := List.mem_map.mp ho
  by_cases hcase : o₀.uniqueId = i
  · rw [if_pos hcase] at hid ⊢
    rw [movedObject_projectedWidth, movedObject_projectedHeight]
    exact hfit o₀ h₀ hcase
  · rw [if_neg hcase] at hid ⊢
    exact hfit o₀ h₀ hid

/-- Folding further moves keeps every id-`i` entity's bounding box inside
the (unchanged) room. -/
lemma foldl_moves_inbounds (moves : List (ℝ × ℝ)) :
    ∀ s : ObjectManager, s.selectedId = some i →
      (∀ o ∈ s.placedObjects, o.uniqueId = i →
        projectedWidth o ≤ s.room.canvasWidth ∧
          projectedHeight o ≤ s.room.canvasHeight) →
      (∀ o ∈ s.placedObjects, o.uniqueId = i → bboxWithinRoom s.room o) →
      ∀ o ∈ (moves.foldl (fun t m => t.moveSelectedObject m.1 m.2) s).placedObjects,
        o.uniqueId = i →
        bboxWithinRoom s.room o := by
  induction moves with
  | nil => exact fun s _ _ hin => hin
  | cons m rest ih =>
      intro s hsel hfit _hin
      rw [List.foldl_cons]
      have hsel' : (s.moveSelectedObject m.1 m.2).selectedId = some i := by
        rw [moveSelectedObject_selectedId, hsel]
      have hroom' : (s.moveSelectedObject m.1 m.2).room = s.room :=
        moveSelectedObject_room s m.1 m.2
      have hfit' := moveSelectedObject_fit hsel m.1 m.2 hfit
      have hin' := moveSelectedObject_inbounds hsel m.1 m.2 hfit
      have := ih (s.moveSelectedObject m.1 m.2) hsel'
        (by rw [hroom'] at hfit' ⊢; exact hfit')
        (by intro o ho hid; rw [hroom']; exact hin' o ho hid)
      intro o ho hid
      rw [← hroom']
      exact this o ho hid

end MoveLemmas

section LoadLemmas

lemma strOr_some_empty (str : String) : strOr (some str) "" = str := by
  show (if (str == "") = true then "" else str) = str
  by_cases h : str = ""
  · rw [if_pos (by simp [h])]
    exact h.symm
  · rw [if_neg (by simp [h])]

lemma strOr_some_of_ne (str dflt : String) (h : str ≠ "") :
    strOr (some str) dflt = str := by
  show (if (str == "") = true then dflt else str) = str
  rw [if_neg (by simp [h])]

/-- The loader's reconstruction restores the persisted fields of a record. -/
lemma restoredMatch_loaded (room : Room) (counter index : ℕ) (r : SavedObject) :
    restoredMatch r (loadedObjectOfRecord room counter index r) := by
  unfold restoredMatch loadedObjectOfRecord PlacedObject.make
  refine ⟨rfl, rfl, rfl, rfl, rfl, ?_, ?_⟩
  · show strOr (some (strOr (some r.label) "")) "" = r.label
    rw [strOr_some_empty, strOr_some_empty]
  · intro hne
    show strOr (some (strOr (some r.typeId) _)) "custom" = r.typeId
    rw [strOr_some_of_ne _ _ hne, strOr_some_of_ne _ _ hne]

/-- The forEach loop of the loader appends exactly the reconstructions of
the records that pass the per-record validation, in order; invalid records
are skipped without affecting the rest. -/
lemma loadObjectsGo_spec (room : Room) (recs : List SavedObject) :
    ∀ (index : ℕ) (acc : ObjectManager),
      ∃ tail,
        (loadObjectsGo room index acc recs).placedObjects =
          acc.placedObjects ++ tail ∧
        List.Forall₂ restoredMatch
          (recs.filter fun r => decide (savedRecordValid r)) tail := by
  induction recs with
  | nil =>
      intro index acc
      exact ⟨[], by simp [loadObjectsGo], by simp⟩
  | cons r rest ih =>
      intro index acc
      rw [loadObjectsGo]
      by_cases hv : savedRecordValid r
      · rw [if_pos hv]
        obtain ⟨tail, hpl, hmatch⟩ := ih (index + 1)
          { acc with
            placedObjects :=
              acc.placedObjects ++ [loadedObjectOfRecord room acc.counter index r]
            counter := acc.counter + 1 }
        refine ⟨loadedObjectOfRecord room acc.counter index r :: tail, ?_, ?_⟩
        · rw [hpl]
          simp
        · rw [List.filter_cons, if_pos (by simpa using hv)]
          exact List.Forall₂.cons (restoredMatch_loaded room acc.counter index r) hmatch
      · rw [if_neg hv]
        obtain ⟨tail, hpl, hmatch⟩ := ih (index + 1) acc
        refine ⟨tail, hpl, ?_⟩
        rw [List.filter_cons, if_neg (by simpa using hv)]
        exact hmatch

/-- Loading into a fresh manager restores exactly the valid records. -/
lemma loadObjectsIntoManager_spec (room : Room) (recs : List SavedObject) :
    List.Forall₂ restoredMatch
      (recs.filter fun r => decide (savedRecordValid r))
      (loadObjectsIntoManager (ObjectManager.init room) recs).placedObjects := by
  obtain ⟨tail, hpl, hmatch⟩ := loadObjectsGo_spec room recs 0 (ObjectManager.init room)
  unfold loadObjectsIntoManager
  show List.Forall₂ restoredMatch _
    (loadObjectsGo room 0 (ObjectManager.init room) recs).placedObjects
  rw [hpl]
  simpa using hmatch

/-- Records saved from entities with positive units are valid per the
loader's check. -/
lemma savedRecordOfObject_valid (o : PlacedObject)
    (hw : 0 < o.widthUnits) (hl : 0 < o.lengthUnits) :
    savedRecordValid (savedRecordOfObject o) := by
  unfold savedRecordValid savedRecordOfObject JsNum.isNaN
  exact ⟨by simpa using hw, by simpa using hl, rfl, rfl⟩

end LoadLemmas

section ConcreteHelpers

lemma valid_demoDef : validDefinition demoDef := by
  refine ⟨by decide, by decide, by norm_num [demoDef], by norm_num [demoDef]⟩

lemma room_make_5_4 : Room.make 5 4 = .ok testRoom := by
  unfold Room.make Room.calculateScale testRoom CANVAS_MAX_WIDTH CANVAS_MAX_HEIGHT
  rw [if_neg (by norm_num)]
  have hmin : min ((1000 : ℝ) / 5) (700 / 4) = 175 := by
    rw [show (1000 : ℝ) / 5 = 200 by norm_num, show (700 : ℝ) / 4 = 175 by norm_num]
    exact min_eq_right (by norm_num)
  simp only [hmin]
  norm_num

lemma projectedWidth_objW : projectedWidth objW = 350 := by
  unfold projectedWidth objW PlacedObject.make demoDef degreesToRadians
  norm_num [Real.cos_zero, Real.sin_zero, abs_of_nonneg]

lemma projectedHeight_objW : projectedHeight objW = 175 := by
  unfold projectedHeight objW PlacedObject.make demoDef degreesToRadians
  norm_num [Real.cos_zero, Real.sin_zero, abs_of_nonneg]

lemma projectedWidth_objBig : projectedWidth objBig = 1750 := by
  unfold projectedWidth objBig PlacedObject.make bigDef degreesToRadians
  norm_num [Real.cos_zero, Real.sin_zero, abs_of_nonneg]

lemma hvalid_infRec : savedRecordValid infRec := by
  refine ⟨by norm_num [infRec], by norm_num [infRec], rfl, rfl⟩

lemma manager_inv_mgrW : ManagerInv mgrW := by
  refine ⟨?_, ?_, ?_, ?_⟩
  · simp [mgrW, objW, PlacedObject.make]
  · intro o ho
    have : o = objW := by simpa [mgrW] using ho
    subst this
    show (0 : ℕ) < 1
    norm_num
  · intro i hi
    have : i = 0 := by simpa [mgrW] using hi.symm
    subst this
    exact ⟨objW, by simp [mgrW], rfl, rfl⟩
  · intro o ho _
    have : o = objW := by simpa [mgrW] using ho
    subst this
    rfl

lemma manager_inv_mgrTwo : ManagerInv mgrTwo := by
  refine ⟨?_, ?_, ?_, ?_⟩
  · simp [mgrTwo, PlacedObject.make]
  · intro o ho
    rcases (by simpa [mgrTwo] using ho :
        o = PlacedObject.make demoDef 400 350 175 0 ∨
          o = PlacedObject.make demoDef 400 350 175 1) with rfl | rfl <;>
      simp [mgrTwo, PlacedObject.make]
  · intro i hi
    simp [mgrTwo] at hi
  · intro o ho hf
    rcases (by simpa [mgrTwo] using ho :
        o = PlacedObject.make demoDef 400 350 175 0 ∨
          o = PlacedObject.make demoDef 400 350 175 1) with rfl | rfl <;>
      simp [PlacedObject.make] at hf

end ConcreteHelpers

/-- C7: room construction succeeds for every pair of positive dimensions,
with scale `min(maxCanvasWidth/widthUnits, maxCanvasHeight/lengthUnits)` and
pixel dimensions `widthUnits×scale` by `lengthUnits×scale`; it fails with an
error whenever either dimension is ≤ 0; and a 5×4 room under the 1000×700
maximum canvas has scale 175 and pixel size 875×700. -/
theorem room_construction_spec :
    (∀ w l : ℝ, 0 < w → 0 < l →
      Room.make w l = .ok
        { width := w, length := l,
          scale := min (CANVAS_MAX_WIDTH / w) (CANVAS_MAX_HEIGHT / l),
          canvasWidth := w * min (CANVAS_MAX_WIDTH / w) (CANVAS_MAX_HEIGHT / l),
          canvasHeight := l * min (CANVAS_MAX_WIDTH / w) (CANVAS_MAX_HEIGHT / l) }) ∧
    (∀ w l : ℝ, w ≤ 0 ∨ l ≤ 0 →
      Room.make w l = .error "Room dimensions must be positive.") ∧
    Room.make 5 4 = .ok
      { width := 5, length := 4, scale := 175, canvasWidth := 875,
        canvasHeight := 700 } := by
  refine ⟨?_, ?_, room_make_5_4⟩
  · intro w l hw hl
    unfold Room.make Room.calculateScale
    rw [if_neg (by push_neg; exact ⟨hw, hl⟩)]
  · intro w l h
    unfold Room.make
    rw [if_pos h]

/-- Witness for C7 at the concrete 5×4 input. -/
theorem room_construction_spec_witness :
    0 < (5 : ℝ) ∧ 0 < (4 : ℝ) ∧
    Room.make 5 4 = .ok
      { width := 5, length := 4,
        scale := min (CANVAS_MAX_WIDTH / 5) (CANVAS_MAX_HEIGHT / 4),
        canvasWidth := 5 * min (CANVAS_MAX_WIDTH / 5) (CANVAS_MAX_HEIGHT / 4),
        canvasHeight := 4 * min (CANVAS_MAX_WIDTH / 5) (CANVAS_MAX_HEIGHT / 4) } :=
  ⟨by norm_num, by norm_num,
    room_construction_spec.1 5 4 (by norm_num) (by norm_num)⟩

/-- C6: for an entity whose rotation lies in [0, 360), one rotate step adds
the 10° increment wrapping modulo 360, the result stays in [0, 360), and 36
consecutive steps restore the original rotation. -/
theorem rotate_step_spec (o : PlacedObject)
    (h0 : 0 ≤ o.rotation) (h1 : o.rotation < 360) :
    o.rotate.rotation =
      (if o.rotation + 10 < 360 then o.rotation + 10 else o.rotation + 10 - 360) ∧
    (0 ≤ o.rotate.rotation ∧ o.rotate.rotation < 360) ∧
    (PlacedObject.rotate^[36] o).rotation = o.rotation := by
  refine ⟨rotate_rotation_in_range h0 h1, rotate_range h0 h1, ?_⟩
  obtain ⟨k, hk, hr0, hr1⟩ := rotate_iterate_exists 36 o h0 h1
  have hk' : (PlacedObject.rotate^[36] o).rotation = o.rotation + 360 - 360 * k := by
    rw [hk]
    norm_num
  have hkeq : k = 1 := by
    rcases lt_trichotomy k 1 with hlt | heq | hgt
    · exfalso
      have hk0 : k ≤ 0 := by omega
      have hk0R : (k : ℝ) ≤ 0 := by exact_mod_cast hk0
      linarith
    · exact heq
    · exfalso
      have hk2 : (2 : ℤ) ≤ k := by omega
      have hk2R : (2 : ℝ) ≤ (k : ℝ) := by exact_mod_cast hk2
      linarith
  rw [hkeq] at hk'
  rw [hk']
  norm_num

/-- Witness for C6 at a concrete entity with rotation 0. -/
theorem rotate_step_spec_witness :
    0 ≤ (PlacedObject.make demoDef 400 350 175 0).rotation ∧
    (PlacedObject.make demoDef 400 350 175 0).rotation < 360 ∧
    ((PlacedObject.make demoDef 400 350 175 0).rotate.rotation =
      (if (PlacedObject.make demoDef 400 350 175 0).rotation + 10 < 360 then
        (PlacedObject.make demoDef 400 350 175 0).rotation + 10
      else (PlacedObject.make demoDef 400 350 175 0).rotation + 10 - 360) ∧
    (0 ≤ (PlacedObject.make demoDef 400 350 175 0).rotate.rotation ∧
      (PlacedObject.make demoDef 400 350 175 0).rotate.rotation < 360) ∧
    (PlacedObject.rotate^[36] (PlacedObject.make demoDef 400 350 175 0)).rotation =
      (PlacedObject.make demoDef 400 350 175 0).rotation) :=
  ⟨by norm_num [PlacedObject.make], by norm_num [PlacedObject.make],
    rotate_step_spec _ (by norm_num [PlacedObject.make])
      (by norm_num [PlacedObject.make])⟩

/-- C5: a definition whose width or length is not positive or whose
identifying fields are missing is rejected: addObject returns null and the
manager state (collection, selection, entities, notification count) is
completely unchanged. -/
theorem addObject_rejects_invalid (s : ObjectManager) (d : ObjectDefinition)
    (x y : ℝ)
    (h : d.id = none ∨ d.name = none ∨ ¬0 < d.width ∨ ¬0 < d.length) :
    s.addObject d x y = (none, s) := by
  refine addObject_invalid ?_
  rintro ⟨hid, hname, hw, hl⟩
  rcases h with h | h | h | h
  · rw [h] at hid
    simp [strTruthy] at hid
  · rw [h] at hname
    simp [strTruthy] at hname
  · exact h hw
  · exact h hl

/-- Witness for C5 at a concrete zero-width definition. -/
theorem addObject_rejects_invalid_witness :
    (badDef.id = none ∨ badDef.name = none ∨ ¬0 < badDef.width ∨
      ¬0 < badDef.length) ∧
    mgrW.addObject badDef 100 100 = (none, mgrW) :=
  ⟨Or.inr (Or.inr (Or.inl (by norm_num [badDef]))),
    addObject_rejects_invalid mgrW badDef 100 100
      (Or.inr (Or.inr (Or.inl (by norm_num [badDef]))))⟩

/-- C1 counterexample: a single `addObject` call on a valid definition,
starting from a fresh manager with zero recorded callback invocations,
invokes the registered callback twice (once from the internal selectObject
call and once from addObject itself), not exactly once. -/
theorem addObject_notifies_twice :
    (ObjectManager.init testRoom).notifications = 0 ∧
    ((ObjectManager.init testRoom).addObject demoDef 100 100).2.notifications = 2 := by
  refine ⟨rfl, ?_⟩
  rw [addObject_valid valid_demoDef]
  simp [ObjectManager.init]

/-- C1 (amended): a single addObject call with a valid definition invokes the
registered callback exactly twice (once via the internal selectObject call,
once directly), while selectObject, selectObjectAt, moveSelectedObject with a
selection, rotateSelectedObject with a selection, deleteSelectedObject with a
selection, and updateObjectScales each invoke it exactly once. -/
theorem notifications_per_operation (s : ObjectManager) (d : ObjectDefinition)
    (x y newScale : ℝ) (t : Option ℕ) (i : ℕ) :
    (validDefinition d →
      ((s.addObject d x y).2).notifications = s.notifications + 2) ∧
    ((s.selectObject t).notifications = s.notifications + 1) ∧
    (((s.selectObjectAt x y).2).notifications = s.notifications + 1) ∧
    (s.selectedId = some i →
      (s.moveSelectedObject x y).notifications = s.notifications + 1) ∧
    (s.selectedId = some i →
      s.rotateSelectedObject.notifications = s.notifications + 1) ∧
    (s.selectedId = some i → (∃ o ∈ s.placedObjects, o.uniqueId = i) →
      s.deleteSelectedObject.notifications = s.notifications + 1) ∧
    ((s.updateObjectScales newScale).notifications = s.notifications + 1) := by
  refine ⟨?_, ?_, ?_, ?_, ?_, ?_, ?_⟩
  · intro hv
    rw [addObject_valid hv]
    simp
  · simp
  · rw [selectObjectAt_eq]
    simp
  · intro hs
    rw [moveSelectedObject_some hs]
    rfl
  · intro hs
    rw [rotateSelectedObject_some hs]
    rfl
  · rintro hs ⟨o, ho, hid⟩
    obtain ⟨k, hk⟩ := jsFindIndex_exists (p := fun o => o.uniqueId == i)
      ⟨o, ho, by simp [hid]⟩
    rw [deleteSelectedObject_found hs hk]
    rfl
  · rfl

/-- Witness for C1's amended theorem at the concrete one-object manager. -/
theorem notifications_per_operation_witness :
    validDefinition demoDef ∧ mgrW.selectedId = some 0 ∧
    (∃ o ∈ mgrW.placedObjects, o.uniqueId = 0) ∧
    (mgrW.addObject demoDef 100 100).2.notifications = mgrW.notifications + 2 ∧
    (mgrW.moveSelectedObject 100 100).notifications = mgrW.notifications + 1 ∧
    mgrW.rotateSelectedObject.notifications = mgrW.notifications + 1 ∧
    mgrW.deleteSelectedObject.notifications = mgrW.notifications + 1 := by
  have hv := valid_demoDef
  have hsel : mgrW.selectedId = some 0 := rfl
  have hmem : ∃ o ∈ mgrW.placedObjects, o.uniqueId = 0 :=
    ⟨objW, by simp [mgrW], rfl⟩
  obtain ⟨c1, _c2, _c3, c4, c5, c6, _c7⟩ :=
    notifications_per_operation mgrW demoDef 100 100 50 none 0
  exact ⟨hv, hsel, hmem, c1 hv, c4 hsel, c5 hsel, c6 hsel hmem⟩

/-- C2 counterexample: in the 875×700-pixel room, a selected 10×1-unit entity
(projected width 1750 px at rotation 0) moved by `moveSelectedObject` ends
with its rotation-projected bounding box outside `[0, roomPixelWidth]`: the
claim's boundary law fails for entities larger than the room. -/
theorem move_bbox_escapes :
    ∃ o ∈ (mgrBig.moveSelectedObject 400 350).placedObjects,
      ¬bboxWithinRoom mgrBig.room o := by
  rw [moveSelectedObject_some (show mgrBig.selectedId = some 0 from rfl)]
  refine ⟨movedObject mgrBig.room objBig 400 350, ?_, ?_⟩
  · rw [notifyChange_placedObjects]
    show movedObject mgrBig.room objBig 400 350 ∈
      List.map (fun o => if o.uniqueId = 0 then movedObject mgrBig.room o 400 350 else o)
        [objBig]
    simp only [List.map_cons, List.map_nil, List.mem_singleton]
    rw [if_pos (show objBig.uniqueId = 0 from rfl)]
  · rintro ⟨_, h2, _, _⟩
    rw [movedObject_projectedWidth, projectedWidth_objBig] at h2
    have hx : (movedObject mgrBig.room objBig 400 350).x ≥ projectedWidth objBig / 2 := by
      rw [movedObject_x]
      exact le_max_left _ _
    rw [projectedWidth_objBig] at hx
    have hcw : mgrBig.room.canvasWidth = 875 := rfl
    rw [hcw] at h2
    linarith

/-- C2 (amended): for every selected entity and every nonempty sequence of
`moveSelectedObject(x,y)` calls with arbitrarily out-of-range targets, the
resulting center keeps the rotation-projected bounding box entirely within
`[0, roomPixelWidth] × [0, roomPixelHeight]`, provided the entity's projected
width and height do not exceed the room's pixel width and height (the clamp
cannot contain an entity whose projected extent is larger than the room). -/
theorem move_sequence_keeps_bbox (s : ObjectManager) (i : ℕ)
    (moves : List (ℝ × ℝ)) (hsel : s.selectedId = some i) (hne : moves ≠ [])
    (hfit : ∀ o ∈ s.placedObjects, o.uniqueId = i →
      projectedWidth o ≤ s.room.canvasWidth ∧
        projectedHeight o ≤ s.room.canvasHeight) :
    ∀ o ∈ (moves.foldl (fun t m => t.moveSelectedObject m.1 m.2) s).placedObjects,
      o.uniqueId = i → bboxWithinRoom s.room o := by
  obtain ⟨m, rest, rfl⟩ := List.exists_cons_of_ne_nil hne
  rw [List.foldl_cons]
  have hsel' : (s.moveSelectedObject m.1 m.2).selectedId = some i := by
    rw [moveSelectedObject_selectedId, hsel]
  have hroom' := moveSelectedObject_room s m.1 m.2
  have hfit' := moveSelectedObject_fit hsel m.1 m.2 hfit
  have hin' := moveSelectedObject_inbounds hsel m.1 m.2 hfit
  have hin'' : ∀ o ∈ (s.moveSelectedObject m.1 m.2).placedObjects,
      o.uniqueId = i → bboxWithinRoom (s.moveSelectedObject m.1 m.2).room o :=
    fun o ho hid => by rw [hroom']; exact hin' o ho hid
  intro o ho hid
  have hmain := foldl_moves_inbounds rest (s.moveSelectedObject m.1 m.2)
    hsel' hfit' hin'' o ho hid
  rwa [hroom'] at hmain

/-- Witness for C2's amended theorem: the spec scenario, a selected 2×1-unit
(350×175 px) unrotated entity moved to (−500, 350) in the 875×700 room. -/
theorem move_sequence_keeps_bbox_witness :
    mgrW.selectedId = some 0 ∧
    ([((-500 : ℝ), (350 : ℝ))] ≠ ([] : List (ℝ × ℝ))) ∧
    (∀ o ∈ mgrW.placedObjects, o.uniqueId = 0 →
      projectedWidth o ≤ mgrW.room.canvasWidth ∧
        projectedHeight o ≤ mgrW.room.canvasHeight) ∧
    (∀ o ∈ ([((-500 : ℝ), (350 : ℝ))].foldl
        (fun t m => t.moveSelectedObject m.1 m.2) mgrW).placedObjects,
      o.uniqueId = 0 → bboxWithinRoom mgrW.room o) := by
  have hsel : mgrW.selectedId = some 0 := rfl
  have hne : ([((-500 : ℝ), (350 : ℝ))] ≠ ([] : List (ℝ × ℝ))) := by simp
  have hfit : ∀ o ∈ mgrW.placedObjects, o.uniqueId = 0 →
      projectedWidth o ≤ mgrW.room.canvasWidth ∧
        projectedHeight o ≤ mgrW.room.canvasHeight := by
    intro o ho _
    have : o = objW := by simpa [mgrW] using ho
    subst this
    have hcw : mgrW.room.canvasWidth = 875 := rfl
    have hch : mgrW.room.canvasHeight = 700 := rfl
    rw [hcw, hch, projectedWidth_objW, projectedHeight_objW]
    constructor <;> norm_num
  exact ⟨hsel, hne, hfit,
    move_sequence_keeps_bbox mgrW 0 [((-500 : ℝ), (350 : ℝ))] hsel hne hfit⟩

/-- C3: selectObjectAt hit-tests entities in reverse insertion order with the
rotated-rectangle point test, makes the first (topmost) match the sole
selection (deselecting any prior selection), empties the selection when no
entity matches, always emits exactly one change notification, and returns the
newly selected entity or none. -/
theorem selectObjectAt_spec (s : ObjectManager) (x y : ℝ) (h : ManagerInv s) :
    ((s.selectObjectAt x y).2.notifications = s.notifications + 1) ∧
    ((s.selectObjectAt x y).2.selectedId =
      (s.selectObjectAt x y).1.map PlacedObject.uniqueId) ∧
    (∀ a, (s.selectObjectAt x y).1 = some a →
      ∃ l₁ l₂, s.placedObjects = l₁ ++ a :: l₂ ∧ hitAt x y a ∧
        ∀ b ∈ l₂, ¬hitAt x y b) ∧
    ((s.selectObjectAt x y).1 = none → ∀ a ∈ s.placedObjects, ¬hitAt x y a) ∧
    (∀ o ∈ (s.selectObjectAt x y).2.placedObjects,
      (o.isSelected = true ↔
        (s.selectObjectAt x y).1.map PlacedObject.uniqueId = some o.uniqueId)) := by
  obtain ⟨_, _, _, hflag⟩ := h
  refine ⟨?_, ?_, ?_, ?_, ?_⟩
  · rw [selectObjectAt_eq]
    simp
  · rw [selectObjectAt_eq]
    simp
  · intro a ha
    rw [selectObjectAt_eq] at ha
    obtain ⟨l₁, l₂, hsplit, hhit, hnone⟩ := jsFindFirst_split ha
    refine ⟨l₂.reverse, l₁.reverse, ?_, hhit, ?_⟩
    · have := congrArg List.reverse hsplit
      rw [List.reverse_reverse] at this
      rw [this]
      simp
    · intro b hb
      exact hnone b (List.mem_reverse.mp hb)
  · intro hnone a ha
    rw [selectObjectAt_eq] at hnone
    exact jsFindFirst_eq_none hnone a (List.mem_reverse.mpr ha)
  · intro o ho
    rw [selectObjectAt_eq] at ho ⊢
    rw [selectObject_placedObjects] at ho
    obtain ⟨o₀, h₀, rfl⟩ := List.mem_map.mp ho
    by_cases c1 : some o₀.uniqueId =
        (jsFindFirst (hitAt x y) s.placedObjects.reverse).map PlacedObject.uniqueId
    · rw [if_pos c1]
      constructor
      · intro _
        exact c1.symm
      · intro _
        rfl
    · rw [if_neg c1]
      by_cases c2 : some o₀.uniqueId = s.selectedId
      · rw [if_pos c2]
        constructor
        · intro hfalse
          cases hfalse
        · intro heq
          exact absurd heq.symm c1
      · rw [if_neg c2]
        constructor
        · intro hf
          exact absurd (hflag o₀ h₀ hf).symm c2
        · intro heq
          exact absurd heq.symm c1

/-- Witness for C3 at a concrete two-object manager. -/
theorem selectObjectAt_spec_witness :
    ManagerInv mgrTwo ∧
    (((mgrTwo.selectObjectAt 400 350).2.notifications = mgrTwo.notifications + 1) ∧
    ((mgrTwo.selectObjectAt 400 350).2.selectedId =
      (mgrTwo.selectObjectAt 400 350).1.map PlacedObject.uniqueId) ∧
    (∀ a, (mgrTwo.selectObjectAt 400 350).1 = some a →
      ∃ l₁ l₂, mgrTwo.placedObjects = l₁ ++ a :: l₂ ∧ hitAt 400 350 a ∧
        ∀ b ∈ l₂, ¬hitAt 400 350 b) ∧
    ((mgrTwo.selectObjectAt 400 350).1 = none →
      ∀ a ∈ mgrTwo.placedObjects, ¬hitAt 400 350 a) ∧
    (∀ o ∈ (mgrTwo.selectObjectAt 400 350).2.placedObjects,
      (o.isSelected = true ↔
        (mgrTwo.selectObjectAt 400 350).1.map PlacedObject.uniqueId =
          some o.uniqueId))) :=
  ⟨manager_inv_mgrTwo, selectObjectAt_spec mgrTwo 400 350 manager_inv_mgrTwo⟩

/-- C4: after every sequence of manager operations starting from a fresh
manager, the selection invariant holds: the selected reference, if present,
is an element of the collection with its isSelected flag set, no other
element is flagged, and no element is flagged when the selection is absent. -/
theorem selection_invariant_holds (room : Room) (ops : List ManagerOp) :
    SelInv (runOps room ops) :=
  selInv_of_managerInv (manager_inv_runOps room ops)

lemma forall₂_restored_to_roundtrip :
    ∀ (objs loaded : List PlacedObject),
      (∀ o ∈ objs, 0 < o.widthUnits ∧ 0 < o.lengthUnits ∧ o.typeId ≠ "") →
      List.Forall₂ restoredMatch (objs.map savedRecordOfObject) loaded →
      List.Forall₂ roundTripMatch objs loaded := by
  intro objs
  induction objs with
  | nil =>
      intro loaded _ h
      cases h
      exact List.Forall₂.nil
  | cons o rest ih =>
      intro loaded hobjs h
      rw [List.map_cons] at h
      cases h with
      | cons hmatch htail =>
          refine List.Forall₂.cons ?_
            (ih _ (fun o' ho' => hobjs o' (List.mem_cons_of_mem _ ho')) htail)
          obtain ⟨hw, hl, hx, hy, hrot, hlabel, htype⟩ := hmatch
          obtain ⟨_, _, htid⟩ := hobjs o (List.mem_cons_self _ _)
          exact ⟨htype htid, hlabel, hw, hl, hrot, hx, hy⟩

/-- C8: saving a layout and loading it back with unchanged room dimensions
(hence an identical recomputed scale) restores a collection of the same
length whose entities match the saved ones on typeId, label, widthUnits,
lengthUnits, rotation and center x/y.  The hypotheses record that the saved
manager holds entities the manager itself can produce: positive physical
units and a nonempty typeId, and a room reproducible from its own
dimensions. -/
theorem save_load_roundtrip (m : ObjectManager)
    (hroom : Room.make m.room.width m.room.length = .ok m.room)
    (hobjs : ∀ o ∈ m.placedObjects,
      0 < o.widthUnits ∧ 0 < o.lengthUnits ∧ o.typeId ≠ "") :
    Room.make (saveLayout m.room m).roomWidth (saveLayout m.room m).roomLength =
      .ok m.room ∧
    List.Forall₂ roundTripMatch m.placedObjects
      (loadObjectsIntoManager (ObjectManager.init m.room)
        (saveLayout m.room m).objects).placedObjects ∧
    (loadObjectsIntoManager (ObjectManager.init m.room)
        (saveLayout m.room m).objects).placedObjects.length =
      m.placedObjects.length := by
  have hload := loadObjectsIntoManager_spec m.room (saveLayout m.room m).objects
  have hobjsrec : (saveLayout m.room m).objects =
      m.placedObjects.map savedRecordOfObject := rfl
  have hfilter : ((saveLayout m.room m).objects.filter
      fun r => decide (savedRecordValid r)) = (saveLayout m.room m).objects := by
    rw [List.filter_eq_self]
    intro r hr
    rw [hobjsrec] at hr
    obtain ⟨o, ho, rfl⟩ := List.mem_map.mp hr
    obtain ⟨hw, hl, _⟩ := hobjs o ho
    simpa using savedRecordOfObject_valid o hw hl
  rw [hfilter, hobjsrec] at hload
  have hmain := forall₂_restored_to_roundtrip m.placedObjects _ hobjs hload
  exact ⟨hroom, hmain, hmain.length_eq.symm⟩

/-- Witness for C8 at the concrete one-object manager in the 5×4 room. -/
theorem save_load_roundtrip_witness :
    Room.make mgrW.room.width mgrW.room.length = .ok mgrW.room ∧
    (∀ o ∈ mgrW.placedObjects,
      0 < o.widthUnits ∧ 0 < o.lengthUnits ∧ o.typeId ≠ "") ∧
    List.Forall₂ roundTripMatch mgrW.placedObjects
      (loadObjectsIntoManager (ObjectManager.init mgrW.room)
        (saveLayout mgrW.room mgrW).objects).placedObjects ∧
    (loadObjectsIntoManager (ObjectManager.init mgrW.room)
        (saveLayout mgrW.room mgrW).objects).placedObjects.length =
      mgrW.placedObjects.length := by
  have hroom : Room.make mgrW.room.width mgrW.room.length = .ok mgrW.room :=
    room_make_5_4
  have hobjs : ∀ o ∈ mgrW.placedObjects,
      0 < o.widthUnits ∧ 0 < o.lengthUnits ∧ o.typeId ≠ "" := by
    intro o ho
    have : o = objW := by simpa [mgrW] using ho
    subst this
    refine ⟨by norm_num [objW, PlacedObject.make, demoDef],
      by norm_num [objW, PlacedObject.make, demoDef], by decide⟩
  obtain ⟨_, h2, h3⟩ := save_load_roundtrip mgrW hroom hobjs
  exact ⟨hroom, hobjs, h2, h3⟩

/-- C9 (amended): loading validates each record individually — positive
widthUnits/lengthUnits and non-NaN x and y (finiteness is not checked, so a
record with an infinite coordinate passes) — and a failing record is skipped
on its own while every valid record in the same array is restored in order:
the restored collection is exactly the reconstruction of the records passing
validation. -/
theorem load_validates_per_record (room : Room) (recs : List SavedObject) :
    List.Forall₂ restoredMatch
      (recs.filter fun r => decide (savedRecordValid r))
      (loadObjectsIntoManager (ObjectManager.init room) recs).placedObjects ∧
    (loadObjectsIntoManager (ObjectManager.init room) recs).placedObjects.length =
      (recs.filter fun r => decide (savedRecordValid r)).length := by
  have h := loadObjectsIntoManager_spec room recs
  exact ⟨h, h.length_eq.symm⟩

/-- C9 counterexample: a record with an infinite x coordinate — a numeric
but non-finite JS value — passes the loader's `isNaN`-only validation and is
restored rather than skipped, so validation does not require finite
coordinates as claimed. -/
theorem load_restores_infinite_coordinate :
    infRec.x = JsNum.inf ∧
    (loadObjectsIntoManager (ObjectManager.init testRoom)
      [infRec]).placedObjects.length = 1 := by
  refine ⟨rfl, ?_⟩
  unfold loadObjectsIntoManager
  rw [loadObjectsGo, if_pos hvalid_infRec, loadObjectsGo]
  simp [ObjectManager.init]

/-- C10: deleting the selected entity clears the manager's selection and
removes the entity from the collection, but never resets the removed entity
value's isSelected flag: a caller retaining a reference observes an entity
still marked selected whose identifier no longer occurs in the collection. -/
theorem delete_leaves_stale_flag (s : ObjectManager) (i : ℕ)
    (h : ManagerInv s) (hsel : s.selectedId = some i) :
    ∃ o ∈ s.placedObjects, o.uniqueId = i ∧ o.isSelected = true ∧
      s.deleteSelectedObject.selectedId = none ∧
      (∀ o' ∈ s.deleteSelectedObject.placedObjects, o'.uniqueId ≠ i) ∧
      s.deleteSelectedObject.placedObjects.length + 1 = s.placedObjects.length := by
  obtain ⟨hnd, hctr, hselinv, hflag⟩ := h
  obtain ⟨o₀, h₀, hoid, hofl⟩ := hselinv i hsel
  obtain ⟨k, hk⟩ := jsFindIndex_exists (p := fun o => o.uniqueId == i)
    ⟨o₀, h₀, by simp [hoid]⟩
  obtain ⟨hklt, _⟩ := jsFindIndex_spec hk
  refine ⟨o₀, h₀, hoid, hofl, ?_, ?_, ?_⟩
  · rw [deleteSelectedObject_found hsel hk]
    rfl
  · rw [deleteSelectedObject_found hsel hk]
    intro o' ho'
    exact eraseIdx_no_id hnd hk o' (by simpa using ho')
  · rw [deleteSelectedObject_found hsel hk]
    show (s.placedObjects.eraseIdx k).length + 1 = s.placedObjects.length
    rw [List.length_eraseIdx_of_lt hklt]
    omega

/-- Witness for C10 at the concrete one-object manager. -/
theorem delete_leaves_stale_flag_witness :
    ManagerInv mgrW ∧ mgrW.selectedId = some 0 ∧
    (∃ o ∈ mgrW.placedObjects, o.uniqueId = 0 ∧ o.isSelected = true ∧
      mgrW.deleteSelectedObject.selectedId = none ∧
      (∀ o' ∈ mgrW.deleteSelectedObject.placedObjects, o'.uniqueId ≠ 0) ∧
      mgrW.deleteSelectedObject.placedObjects.length + 1 =
        mgrW.placedObjects.length) :=
  ⟨manager_inv_mgrW, rfl, delete_leaves_stale_flag mgrW 0 manager_inv_mgrW rfl⟩
